import Mathlib

/-!
Verification development for the model-ts storage core: a typed
object-to-table access layer over a DynamoDB-style table.

The development shallowly embeds the parts of the source that the checked
properties are about:

* `packages/dynamodb/src/pagination.ts` — `decodePagination`,
  `encodeDDBCursor`, `decodeDDBCursor`;
* `packages/dynamodb/src/client.ts` — `Client.put`,
  `Client.executeBulkTransaction`, `Client.bulk`, `Client.transactWrite`;
* `packages/dynamodb/src/provider.ts` — the `update` operation builder and
  `__dynamoDBEncode`;
* the core package — `model` (decode/encode round-trip), `union`
  (`decodeOrThrow`) and the per-property `encodeProp` walker.

JavaScript-specific behaviours are modelled explicitly:

* a field of a params object that can be absent, present-but-`undefined`,
  or present with a value is `Option (Option β)` (`none` = key absent,
  `some none` = key present holding `undefined`);
* JS truthiness of an optional number/string is `truthyNum` / `truthyStr`
  (`0`, `""`, `null`, `undefined` are falsy);
* object-spread override (`{ a: x, ...params }`) takes the `params` value
  whenever the key is present there, even when its value is `undefined`.

External collaborators (the AWS SDK transport, Node's `crypto`, `JSON` and
base64) are out of scope of the repository and are modelled as parameters,
with their documented behaviour as hypotheses where a claim needs it.
-/

namespace ModelTs

/-! ## Pagination argument decoding (`pagination.ts`, `decodePagination`) -/

/-- `PaginationInput` of `pagination.ts`: all four fields optional
(`number | null | undefined` collapses to `Option Int`, `string | null |
undefined` to `Option String`; `null` and `undefined` behave identically in
this function). -/
structure PaginationInput where
  first : Option Int
  last : Option Int
  before : Option String
  after : Option String
deriving DecidableEq, Repr

inductive PaginationDirection where
  | FORWARD
  | BACKWARD
deriving DecidableEq, Repr

structure DecodedPagination where
  cursor : Option String
  limit : Int
  direction : PaginationDirection
deriving DecidableEq, Repr

/-- JS truthiness of an optional number: `null`/`undefined` and `0` are falsy. -/
def truthyNum : Option Int → Bool
  | some n => n != 0
  | none => false

/-- JS truthiness of an optional string: `null`/`undefined` and `""` are falsy. -/
def truthyStr : Option String → Bool
  | some s => s != ""
  | none => false

/-- JS nullish coalescing `a ?? b` on optional numbers (only `null`/`undefined`
fall through; `0` does not). -/
def nullishNum (a : Option Int) (b : Int) : Int :=
  match a with
  | some n => n
  | none => b

/-- JS nullish coalescing on optional strings. -/
def nullishStr (a b : Option String) : Option String :=
  match a with
  | some s => some s
  | none => b

/-- `decodePagination` of `pagination.ts`.  A thrown `PaginationError` is the
`.error` branch carrying the error message. -/
def decodePagination (p : PaginationInput) : Except String DecodedPagination :=
  if truthyStr p.before && truthyStr p.after then
    .error "Only one of \"before\" and \"after\" can be specified"
  else if truthyNum p.first && truthyNum p.last then
    .error "Only one of \"first\" and \"last\" can be specified"
  else if truthyStr p.before && truthyNum p.first then
    .error "Only one of \"before\" and \"first\" can be specified"
  else if truthyNum p.last && truthyStr p.after then
    .error "Only one of \"last\" and \"after\" can be specified"
  else if truthyNum p.first && (p.first.getD 0) < 0 then
    .error "\"first\" must be positive"
  else if truthyNum p.last && (p.last.getD 0) < 0 then
    .error "\"last\" must be positive"
  else
    .ok
      { cursor := nullishStr p.before p.after
        limit := min (nullishNum p.first (nullishNum p.last 20)) 50
        direction :=
          if truthyStr p.before || truthyNum p.last then .BACKWARD
          else .FORWARD }

/-! ## Cursor encoding (`pagination.ts`, `encodeDDBCursor` / `decodeDDBCursor`)

`encodeDDBCursor` serializes the ten key attributes of an item with
`JSON.stringify`, base64-encodes the result and, when an encryption key is
configured, encrypts with AES-256-CTR under the hard-coded synthetic IV
`"Q05yyCR+0tyWl6glrZhlNw=="`.  `JSON.stringify`, base64 and the cipher are
Node built-ins (external collaborators), so they are modelled as a
serialization parameter `CursorWire`: `ser` is `stringify` + base64, `deser`
is base64-decode + `JSON.parse` + the `typeof PK/SK === "string"` check of
`decodeDDBCursor`, and `encrypt`/`decrypt` is the fixed-IV cipher.  Because
the IV is the fixed constant, the cipher is a pure function of the key and
the plaintext, which is exactly why a deterministic functional model of it
is faithful. -/

/-- The ten key attributes taken from an item by `encodeDDBCursor`. -/
structure ItemKeys where
  PK : String
  SK : String
  GSI2PK : Option String
  GSI2SK : Option String
  GSI3PK : Option String
  GSI3SK : Option String
  GSI4PK : Option String
  GSI4SK : Option String
  GSI5PK : Option String
  GSI5SK : Option String
deriving DecidableEq, Repr

inductive GsiIndex where
  | GSI2
  | GSI3
  | GSI4
  | GSI5
deriving DecidableEq, Repr

/-- The shapes returned by `decodeDDBCursor`: `{ PK, SK }` for the primary
index, `{ PK, SK, GSInPK, GSInSK }` for a GSI query. -/
inductive DecodedCursor where
  | primary (PK SK : String)
  | indexed (index : GsiIndex) (PK SK : String) (gsiPK gsiSK : Option String)
deriving DecidableEq, Repr

/-- The external serialization/encryption stack used by the cursor functions
(see the section comment). `S` is the wire representation (a string in the
source). -/
structure CursorWire (S : Type) where
  ser : ItemKeys → S
  deser : S → Option ItemKeys
  encrypt : S → S
  decrypt : S → Option S

/-- `encodeDDBCursor`: serialize the keys; encrypt when an encryption key is
configured (`useKey`). -/
def encodeDDBCursor {S : Type} (w : CursorWire S) (useKey : Bool)
    (item : ItemKeys) : S :=
  let cursor := w.ser item
  if useKey then w.encrypt cursor else cursor

/-- `decodeDDBCursor`: decrypt (when a key is configured), deserialize, check
`PK`/`SK`, then select the fields for the queried index.  Any failure is
caught and rethrown as `PaginationError("Couldn't decode cursor")`, the
`.error` branch here. -/
def decodeDDBCursor {S : Type} (w : CursorWire S) (useKey : Bool)
    (index : Option GsiIndex) (encoded : S) : Except String DecodedCursor :=
  let json : Option S := if useKey then w.decrypt encoded else some encoded
  match json with
  | none => .error "Couldn\x27t decode cursor"
  | some j =>
    match w.deser j with
    | none => .error "Couldn\x27t decode cursor"
    | some k =>
      match index with
      | none => .ok (.primary k.PK k.SK)
      | some .GSI2 => .ok (.indexed .GSI2 k.PK k.SK k.GSI2PK k.GSI2SK)
      | some .GSI3 => .ok (.indexed .GSI3 k.PK k.SK k.GSI3PK k.GSI3SK)
      | some .GSI4 => .ok (.indexed .GSI4 k.PK k.SK k.GSI4PK k.GSI4SK)
      | some .GSI5 => .ok (.indexed .GSI5 k.PK k.SK k.GSI5PK k.GSI5SK)

/-- The expected decode result for an item's keys and a queried index. -/
def expectedCursorKeys (item : ItemKeys) : Option GsiIndex → DecodedCursor
  | none => .primary item.PK item.SK
  | some .GSI2 => .indexed .GSI2 item.PK item.SK item.GSI2PK item.GSI2SK
  | some .GSI3 => .indexed .GSI3 item.PK item.SK item.GSI3PK item.GSI3SK
  | some .GSI4 => .indexed .GSI4 item.PK item.SK item.GSI4PK item.GSI4SK
  | some .GSI5 => .indexed .GSI5 item.PK item.SK item.GSI5PK item.GSI5SK

/-! ## `Client.put` and the provider-level `update` (`client.ts` / `provider.ts`)

The operation payloads that these claims do not inspect are abstracted:
`V` is the type of an instance's schema values, `P` the type of a partial
attribute patch.  Key derivation (`get PK()` / `get SK()` on the user's
subclass), value merging (`{ ...item.values(), ...attributes }`) and the
codec part of `item.encode()` are parameters. -/

/-- A params-object field: `none` = key absent, `some none` = key present
holding `undefined`, `some (some x)` = key present with a value.  The
distinction matters because object spread overrides with present-but-
`undefined` keys. -/
abbrev JSField (β : Type) := Option (Option β)

/-- JS truthiness of a params field holding an optional string
(`params?.ConditionExpression` in the source): truthy iff present with a
non-empty string. -/
def condTruthy : JSField String → Bool
  | some (some s) => s != ""
  | _ => false

/-- A model instance as seen by the storage layer: its schema values plus
`_docVersion`, which is `none` when the field is not a number (absent on a
freshly constructed instance). -/
structure Inst (V : Type) where
  values : V
  docVersion : Option Int
deriving DecidableEq, Repr

/-- The item written by a put: `item.encode()` (codec output, abstracted to
`body`), `item.keys()` and the numeric `_docVersion`. -/
structure EncodedItem (V : Type) where
  body : V
  PK : String
  SK : String
  gsiKeys : List (String × Option String)
  docVersion : Int
deriving DecidableEq, Repr

/-- A `PutOperation` (`operations.ts`) as consumed by `Client.put`: the item
plus the params that survive the destructuring (`IgnoreExistence` pulled
out, the rest spread into the native call). -/
structure PutOp (V : Type) where
  item : Inst V
  deleted : Bool
  IgnoreExistence : Bool
  ConditionExpression : JSField String
  ExpressionAttributeNames : JSField (List (String × String))
  ExpressionAttributeValues : JSField (List (String × Int))
deriving DecidableEq, Repr

/-- A `DeleteOperation` key. -/
structure DeleteOp where
  PK : String
  SK : String
deriving DecidableEq, Repr

/-- The typed errors of `errors.ts` that the put/update paths can surface,
plus `aws code` for a passthrough of an untyped underlying `AWSError`
(identified in the source only by its `code` property). -/
inductive DBError where
  | keyExists
  | itemNotFound
  | conditionalCheckFailed
  | raceCondition (msg : String)
  | aws (code : String)
deriving DecidableEq, Repr

/-- The `code` property read by the `catch` blocks: only passthrough AWS
errors carry one; the typed error classes of `errors.ts` do not. -/
def DBError.code : DBError → Option String
  | .aws c => some c
  | _ => none

section PutUpdate

variable {V P : Type}

/-- `__dynamoDBEncode` (`provider.ts`): `Object.assign(item.encode(),
item.keys(), { _docVersion: typeof item._docVersion === "number" ?
item._docVersion : 0 })`.  `encodeBody` is the codec part of
`item.encode()`; `pk`, `sk`, `gsis` are the derived key getters. -/
def dynamoDBEncode (pk sk : V → String) (gsis : V → List (String × Option String))
    (encodeBody : V → V) (item : Inst V) : EncodedItem V :=
  { body := encodeBody item.values
    PK := pk item.values
    SK := sk item.values
    gsiKeys := gsis item.values
    docVersion := item.docVersion.getD 0 }

/-- The `ConditionExpression` that `Client.put` actually sends: the default
`attribute_not_exists(PK)` (suppressed by `IgnoreExistence`), overridden by
`...params` whenever the operation carries the key — even when its value is
`undefined`. -/
def effectiveConditionExpression (op : PutOp V) : Option String :=
  match op.ConditionExpression with
  | some c => c
  | none => if op.IgnoreExistence then none else some "attribute_not_exists(PK)"

/-- `Client.put` (`client.ts`): on success the instance's `_docVersion` is
set to the encoded value; a `ConditionalCheckFailedException` is wrapped in
`KeyExistsError` only when the caller supplied no (truthy)
`ConditionExpression`, and every other error is rethrown unchanged.
`storeOutcome` is the store's response to the native `put` call: `none` for
success, `some code` for an `AWSError` with that `code`. -/
def clientPut (pk sk : V → String) (gsis : V → List (String × Option String))
    (encodeBody : V → V) (op : PutOp V) (storeOutcome : Option String) :
    Except DBError (Inst V) :=
  match storeOutcome with
  | none =>
    .ok { op.item with
          docVersion := some (dynamoDBEncode pk sk gsis encodeBody op.item).docVersion }
  | some code =>
    if code = "ConditionalCheckFailedException" && !condTruthy op.ConditionExpression
    then .error .keyExists
    else .error (.aws code)

/-- The result of the `update` operation builder (`provider.ts`,
`operation("update", …)`): a single in-place put, or — when the derived key
changed — a put-new/delete-old transaction pair list. -/
inductive UpdateOpResult (V : Type) where
  | inPlace (op : PutOp V)
  | replace (putNew : PutOp V) (rollbackNew : DeleteOp)
      (deleteOld : DeleteOp) (rollbackOld : PutOp V)
deriving DecidableEq, Repr

/-- A `PutOperation` carrying only an item (every param key absent), as the
builders construct them. -/
def bareOp (item : Inst V) : PutOp V :=
  { item := item, deleted := false, IgnoreExistence := false
    ConditionExpression := none, ExpressionAttributeNames := none
    ExpressionAttributeValues := none }

/-- `operation("update", item, attributes)` (`provider.ts`): build
`updatedItem` with `_docVersion: (item._docVersion ?? 0) + 1`; if `PK`/`SK`
are unchanged, return one put — conditioned on
`attribute_not_exists(#docVersion) OR #docVersion = :docVersion` when the
pre-image `_docVersion` is a number, and otherwise carrying
`ConditionExpression: undefined` (the key present, holding `undefined`);
if the key changed, return the two-step replace pair. -/
def updateOperation (pk sk : V → String) (merge : V → P → V)
    (item : Inst V) (attrs : P) : UpdateOpResult V :=
  let updated : Inst V :=
    { values := merge item.values attrs
      docVersion := some (item.docVersion.getD 0 + 1) }
  if pk item.values = pk updated.values ∧ sk item.values = sk updated.values then
    .inPlace <|
      match item.docVersion with
      | some v =>
        { bareOp updated with
          ConditionExpression :=
            some (some "attribute_not_exists(#docVersion) OR #docVersion = :docVersion")
          ExpressionAttributeNames := some (some [("#docVersion", "_docVersion")])
          ExpressionAttributeValues := some (some [(":docVersion", v)]) }
      | none => { bareOp updated with ConditionExpression := some none }
  else
    .replace
      { bareOp updated with
        ConditionExpression := some (some "attribute_not_exists(PK)") }
      { PK := pk updated.values, SK := sk updated.values }
      { PK := pk item.values, SK := sk item.values }
      (bareOp item)

/-- The instance-level `update` (`provider.ts`, `instanceProps.update`):
run the built operation; for the in-place put, a caught error whose `code`
is `ConditionalCheckFailedException` becomes `RaceConditionError`; for the
replace pair, run `client.bulk` (its outcome is the `bulkOutcome` oracle)
and return the updated item. -/
def instanceUpdate (pk sk : V → String) (gsis : V → List (String × Option String))
    (encodeBody : V → V) (merge : V → P → V) (item : Inst V) (attrs : P)
    (storeOutcome : Option String) (bulkOutcome : Option DBError) :
    Except DBError (Inst V) :=
  match updateOperation pk sk merge item attrs with
  | .inPlace op =>
    match clientPut pk sk gsis encodeBody op storeOutcome with
    | .ok i => .ok i
    | .error e =>
      if e.code = some "ConditionalCheckFailedException" then
        .error (.raceCondition
          "The instance you are attempting to update is out of sync with the stored value.")
      else .error e
  | .replace putNew _ _ _ =>
    match bulkOutcome with
    | none => .ok putNew.item
    | some e => .error e

end PutUpdate

/-! ## The bulk transaction engine (`client.ts`, `executeBulkTransaction`)

The engine never inspects the payload of an operation — it only maps it to
a native transact item — so the payload is an abstract type `α`.  The
store's `transactWrite` is the oracle `exec : List α → Option String`
giving the `AWSError` code of a failure (`none` = success).  The retry
wrapper (`constantDelay(50)` + `limitRetries(3)`, retrying only
non-cancellation errors) re-runs the same call against a deterministic
oracle, so it collapses to a single call; no claim here is about the retry
policy itself. -/

/-- A `BulkOperation` (`operations.ts`): a plain write operation, or a
`TransactionOperation` pair with an `action` and an optional `rollback`. -/
inductive BulkOp (α : Type) where
  | plain (op : α)
  | pair (action : α) (rollback : Option α)
deriving DecidableEq, Repr

/-- An entry of the `bulk` argument list, which accepts single operations
and arrays mixed (`(BulkOperation | BulkOperation[])[]`). -/
inductive BulkArg (α : Type) where
  | single (op : BulkOp α)
  | many (ops : List (BulkOp α))
deriving DecidableEq, Repr

/-- `operations.map((op) => (Array.isArray(op) ? op : [op])).flat()`. -/
def flattenBulkArgs {α : Type} : List (BulkArg α) → List (BulkOp α)
  | [] => []
  | .single op :: rest => op :: flattenBulkArgs rest
  | .many ops :: rest => ops ++ flattenBulkArgs rest

/-- The transact items contributed by a chunk outside rollback mode: a
pair contributes its `action`, a plain operation contributes itself. -/
def actionItems {α : Type} (chunk : List (BulkOp α)) : List α :=
  chunk.map fun op =>
    match op with
    | .plain a => a
    | .pair a _ => a

/-- The transact items contributed by a chunk in rollback mode: a pair
contributes its `rollback` when it has one; plain operations (and pairs
without a rollback) map to `null`/`undefined` and are dropped by
`.filter(Boolean)`. -/
def rollbackItems {α : Type} (chunk : List (BulkOp α)) : List α :=
  chunk.filterMap fun op =>
    match op with
    | .plain _ => none
    | .pair _ rb => rb

/-- The error thrown by `Client.transactWrite`: a
`TransactionCanceledException` is wrapped in `BulkWriteTransactionError`
(keeping the underlying error); everything else is rethrown raw. -/
inductive TWError where
  | bulkWriteTransaction (code : String)
  | raw (code : String)
deriving DecidableEq, Repr

/-- Outcome of one `transactWrite` call under the oracle `exec`. -/
def transactWriteResult {α : Type} (exec : List α → Option String)
    (items : List α) : Option TWError :=
  (exec items).map fun code =>
    if code = "TransactionCanceledException" then .bulkWriteTransaction code
    else .raw code

/-- `BulkWriteState` (`client.ts`), with the optional JS fields defaulted
(`inRollback`/`rollbackSuccessful` absent = `false`). -/
structure BulkWriteState (α : Type) where
  inRollback : Bool := false
  rollbackSuccessful : Bool := false
  transactionError : Option TWError := none
  rollbackError : Option TWError := none
  successful : List (BulkOp α) := []
  rollbackSuccess : List (BulkOp α) := []
  rollbackFailure : List (BulkOp α) := []
deriving DecidableEq, Repr

/-- `executeBulkTransaction` in rollback mode (`state.inRollback` set).  In
the source this is the same recursive function as `execWrite` below; the
`inRollback` flag is set once and never cleared, so the two modes are two
total functions here.  Rollback mode always resolves to the `E.left`
branch: its result is the final `BulkWriteState`. -/
def execRollback {α : Type} (exec : List α → Option String) :
    List (BulkOp α) → BulkWriteState α → BulkWriteState α
  | [], st => { st with rollbackSuccessful := true }
  | op :: rest, st =>
    let ops := op :: rest
    let currentBatch := ops.take 25
    let remaining := ops.drop 25
    let items := rollbackItems currentBatch
    match (if items.isEmpty then none else transactWriteResult exec items) with
    | none =>
      execRollback exec remaining
        { st with rollbackSuccess := st.rollbackSuccess ++ currentBatch }
    | some e =>
      { st with rollbackError := some e, rollbackFailure := ops }
  termination_by ops _ => ops.length
  decreasing_by simp [List.length_drop]; omega

/-- `executeBulkTransaction` outside rollback mode: `.ok` is the `E.right`
(all chunks written) result, `.error` the `E.left` (rollback entered)
result.  On the first failure it rolls back `state.successful` with a
fresh state carrying the original error. -/
def execWrite {α : Type} (exec : List α → Option String) :
    List (BulkOp α) → BulkWriteState α →
    Except (BulkWriteState α) (BulkWriteState α)
  | [], st => .ok st
  | op :: rest, st =>
    let ops := op :: rest
    let currentBatch := ops.take 25
    let remaining := ops.drop 25
    let items := actionItems currentBatch
    match (if items.isEmpty then none else transactWriteResult exec items) with
    | none =>
      execWrite exec remaining
        { st with successful := st.successful ++ currentBatch }
    | some e =>
      .error (execRollback exec st.successful
        { inRollback := true, transactionError := some e
          successful := st.successful
          rollbackSuccess := [], rollbackFailure := [] })
  termination_by ops _ => ops.length
  decreasing_by simp [List.length_drop]; omega

/-- The error thrown by `Client.bulk`: the original transaction error when
the rollback completed, `BulkWriteRollbackError` (carrying the operations
still requiring compensation) when the rollback itself failed.
`undefinedThrown` models `throw transactionError` with the field unset —
unreachable, since every rollback entry records the original error. -/
inductive BulkError (α : Type) where
  | transaction (e : TWError)
  | rollback (requiresRollback : List (BulkOp α))
  | undefinedThrown
deriving DecidableEq, Repr

/-- `Client.bulk`: flatten the argument list, run the engine, and on an
`E.left` result throw the original transaction error (when
`rollbackSuccessful`) or `BulkWriteRollbackError(rollbackFailure)`. -/
def bulk {α : Type} (exec : List α → Option String) (args : List (BulkArg α)) :
    Except (BulkError α) (BulkWriteState α) :=
  match execWrite exec (flattenBulkArgs args) {} with
  | .ok st => .ok st
  | .error st =>
    if st.rollbackSuccessful then
      match st.transactionError with
      | some e => .error (.transaction e)
      | none => .error .undefinedThrown
    else .error (.rollback st.rollbackFailure)

/-- The `i`-th ≤25-sized chunk of a list (`A.splitAt(25)` applied
repeatedly). -/
def chunkAt {β : Type} (l : List β) (i : Nat) : List β :=
  (l.drop (25 * i)).take 25

/-- The chunk list produced by repeated `A.splitAt(25)`. -/
def chunksOf25 {β : Type} : List β → List (List β)
  | [] => []
  | x :: xs => ((x :: xs).take 25) :: chunksOf25 ((x :: xs).drop 25)
  termination_by l => l.length
  decreasing_by simp [List.length_drop]; omega

/-- Modelled from the spec: "Split into chunks of ≤25 … chunk order follows
caller order … issue a `transactWrite`" — one call per chunk, chunks in
caller order, used to state that the engine refines this shape. -/
def specIssueChunks {α : Type} (exec : List α → Option String) :
    List (List (BulkOp α)) → BulkWriteState α →
    Except (BulkWriteState α) (BulkWriteState α)
  | [], st => .ok st
  | c :: cs, st =>
    let items := actionItems c
    match (if items.isEmpty then none else transactWriteResult exec items) with
    | none => specIssueChunks exec cs { st with successful := st.successful ++ c }
    | some e =>
      .error (execRollback exec st.successful
        { inRollback := true, transactionError := some e
          successful := st.successful
          rollbackSuccess := [], rollbackFailure := [] })

/-! ## Union decoding (`union.ts`, `decodeOrThrow`)

A member model is its `_tag` together with its `from` (`decodeOrThrow`),
abstracted to `V → Option I` (`none` = the member's codec threw).  The
value's `_tag` extraction is the source line
`const _tag = typeof value === "object" && (value as any)._tag`, whose
outcome the parameter `tagOf : V → TagView` reports:

* `value === null`: `typeof null === "object"`, so the property access
  `(null)._tag` throws a raw `TypeError` before any member is tried
  (`TagView.isNull`);
* any other value on which `_tag` ends up `false`, `undefined` or another
  non-string (`TagView.noTag`): the preferred trial is skipped (a falsy
  `_tag` short-circuits `_tag && _modelMap.has(_tag)`, and a truthy
  non-string can never be a key of the string-keyed `_modelMap`), and the
  fallback filter `model._tag !== _tag` removes no member, since no
  member's string tag is strictly equal to a non-string;
* an object with a string `_tag` (`TagView.strTag t`, `t = ""` included):
  the preferred trial runs only when `t` is truthy (non-empty), but the
  fallback filter compares against `t` either way, so a member tagged `""`
  is excluded from the fallback even though it was never preferred. -/

/-- A union member as seen by `decodeOrThrow`. -/
structure UnionModel (V I : Type) where
  tag : String
  decodeFrom : V → Option I

/-- Outcome of `typeof value === "object" && (value as any)._tag` (see the
section comment). -/
inductive TagView where
  | isNull
  | noTag
  | strTag (t : String)
deriving DecidableEq, Repr

/-- What `decodeOrThrow` throws: the raw `TypeError` of the `._tag` access
on `null`, or the `RuntimeTypeValidationError` with its message. -/
inductive UnionDecodeError where
  | typeError
  | validation (msg : String)
deriving DecidableEq, Repr

section UnionSec

variable {V I : Type}

/-- `new Map(models.map((model) => [model._tag, model])).get(tag)`: JS `Map`
insertion overwrites, so the last member with the tag wins. -/
def modelMapGet (models : List (UnionModel V I)) (t : String) :
    Option (UnionModel V I) :=
  models.foldl (fun acc m => if m.tag = t then some m else acc) none

/-- First member (in declaration order) whose `from` succeeds. -/
def firstSuccess (v : V) : List (UnionModel V I) → Option I
  | [] => none
  | m :: ms =>
    match m.decodeFrom v with
    | some i => some i
    | none => firstSuccess v ms

/-- `Union.decodeOrThrow` (`union.ts`): evaluate
`typeof value === "object" && (value as any)._tag` (a `TypeError` on
`null`); when the `_tag` is truthy and in `_modelMap`, try that member
first; then every member whose `_tag` strictly differs from the extracted
`_tag`, in declaration order; on total failure throw
`RuntimeTypeValidationError("Couldn't decode using any of the provided
union types.")`. -/
def unionDecodeOrThrow (models : List (UnionModel V I))
    (tagOf : V → TagView) (v : V) : Except UnionDecodeError I :=
  match tagOf v with
  | .isNull => .error .typeError
  | .noTag =>
    match firstSuccess v models with
    | some i => .ok i
    | none =>
      .error (.validation
        "Couldn\x27t decode using any of the provided union types.")
  | .strTag t =>
    let preferred : Option I :=
      if t != "" then
        match modelMapGet models t with
        | some m => m.decodeFrom v
        | none => none
      else none
    match preferred with
    | some i => .ok i
    | none =>
      match firstSuccess v (models.filter fun m => m.tag ≠ t) with
      | some i => .ok i
      | none =>
        .error (.validation
          "Couldn\x27t decode using any of the provided union types.")

/-- Modelled from the spec claim as amended: a `null` value crashes with
the raw `TypeError`; a truthy string `_tag` matching a member (first match
in declaration order) is tried first; the fallback tries, in declaration
order, the members whose tag differs from the extracted string `_tag`
(so an empty-string `_tag` skips the preferred trial yet still excludes
the `""`-tagged member); values without a usable tag try every member in
declaration order; if no tried member decodes, fail with the validation
error. -/
def specUnionDecode (models : List (UnionModel V I))
    (tagOf : V → TagView) (v : V) : Except UnionDecodeError I :=
  let tryRest (rest : List (UnionModel V I)) : Except UnionDecodeError I :=
    match firstSuccess v rest with
    | some i => .ok i
    | none =>
      .error (.validation
        "Couldn\x27t decode using any of the provided union types.")
  match tagOf v with
  | .isNull => .error .typeError
  | .noTag => tryRest models
  | .strTag t =>
    if t ≠ "" then
      match models.find? (fun m => m.tag = t) with
      | some m =>
        match m.decodeFrom v with
        | some i => .ok i
        | none => tryRest (models.filter fun m' => m'.tag ≠ t)
      | none => tryRest (models.filter fun m' => m'.tag ≠ t)
    else tryRest (models.filter fun m' => m'.tag ≠ t)

end UnionSec

/-! ## Per-property encoding (`utils.ts`, `encodeProp` / `Model.encodeProp`)

An io-ts codec, restricted to the structural wrappers the walker can meet.
A declared property's own codec only matters through its total `encode`
function (`β → β` over the abstract attribute type `β`); io-ts `encode`
never throws. -/

/-- The io-ts codec shapes the source walks: `InterfaceType`,
`PartialType`, `StrictType`, `ExactType`, `RefinementType`,
`ReadonlyType`, `IntersectionType`. -/
inductive Codec (β : Type) where
  | interfaceTy (props : List (String × (β → β)))
  | partialTy (props : List (String × (β → β)))
  | strictTy (props : List (String × (β → β)))
  | exactTy (c : Codec β)
  | refinementTy (c : Codec β)
  | readonlyTy (c : Codec β)
  | intersectionTy (cs : List (Codec β))

mutual

/-- `encodeProp` (`utils.ts`): encode `value` with the sub-codec declared
for `key`.  Handles `InterfaceType` and `PartialType` props directly,
recurses through `ExactType`, tries the members of an `IntersectionType`
in order swallowing failures, and otherwise throws
`"No matching codec found."` — note that `RefinementType`, `ReadonlyType`
and `StrictType` fall through to the throw. -/
def encodeProp {β : Type} : Codec β → String → β → Except String β
  | .interfaceTy props, key, v =>
    match props.lookup key with
    | some enc => .ok (enc v)
    | none => .error "No matching codec found."
  | .partialTy props, key, v =>
    match props.lookup key with
    | some enc => .ok (enc v)
    | none => .error "No matching codec found."
  | .exactTy c, key, v => encodeProp c key v
  | .intersectionTy cs, key, v => encodePropFirst cs key v
  | .strictTy _, _, _ => .error "No matching codec found."
  | .refinementTy _, _, _ => .error "No matching codec found."
  | .readonlyTy _, _, _ => .error "No matching codec found."

/-- The `for (const type of codec.types)` loop of `encodeProp`: first
member that does not throw wins. -/
def encodePropFirst {β : Type} : List (Codec β) → String → β → Except String β
  | [], _, _ => .error "No matching codec found."
  | c :: cs, key, v =>
    match encodeProp c key v with
    | .ok w => .ok w
    | .error _ => encodePropFirst cs key v

end

/-- `Model.encodeProp` (`model.ts`): run `encodeProp` against
`Model._codec = t.exact(codec)` and fall back to the unchanged value when
nothing matched. -/
def modelEncodeProp {β : Type} (codec : Codec β) (key : String) (v : β) : β :=
  match encodeProp (.exactTy codec) key v with
  | .ok w => w
  | .error _ => v

mutual

/-- The sub-codec resolution `encodeProp` implements, as a property-to-
encoder lookup: declared props of `InterfaceType`/`PartialType`, descent
through `ExactType` and `IntersectionType` (first match), and no descent
through `StrictType`, `RefinementType` or `ReadonlyType`. -/
def resolveProp {β : Type} : Codec β → String → Option (β → β)
  | .interfaceTy props, key => props.lookup key
  | .partialTy props, key => props.lookup key
  | .exactTy c, key => resolveProp c key
  | .intersectionTy cs, key => resolvePropFirst cs key
  | .strictTy _, _ => none
  | .refinementTy _, _ => none
  | .readonlyTy _, _ => none

def resolvePropFirst {β : Type} : List (Codec β) → String → Option (β → β)
  | [], _ => none
  | c :: cs, key =>
    match resolveProp c key with
    | some enc => some enc
    | none => resolvePropFirst cs key

end

/-! ## Model decode/encode round-trip (`model.ts`)

A raw record is an association list from attribute names to `JVal`
attribute values.  The model's codec is the schema: a list of declared
properties, each with its io-ts property codec, of which only `decode`
(`β → Option β`, `none` = validation failure) and the total `encode`
matter.  `model(tag, codec)` wraps the schema in `t.exact`, so decoding
keeps exactly the declared keys (in declaration order) and encoding emits
exactly the declared keys plus the `_tag` annotation. -/

/-- A primitive attribute value. -/
inductive JVal where
  | s (v : String)
  | n (v : Int)
  | b (v : Bool)
deriving DecidableEq, Repr

/-- A raw record: association list, first binding of a key wins. -/
abbrev RawRec := List (String × JVal)

/-- A declared property's codec. -/
structure PropCodec where
  decodeP : JVal → Option JVal
  encodeP : JVal → JVal

/-- The model's declared schema (an interface codec's `props`). -/
structure SchemaCodec where
  props : List (String × PropCodec)

/-- A model instance: the `_tag` plus the decoded schema attributes. -/
structure MInst where
  tag : String
  values : RawRec
deriving DecidableEq, Repr

/-- `t.exact(codec).decode`: validate each declared property against the
input record (missing or invalid ⇒ failure) and keep exactly the declared
keys; extraneous keys of the input — `_tag` included — are stripped. -/
def exactDecode (props : List (String × PropCodec)) (r : RawRec) :
    Option RawRec :=
  match props with
  | [] => some []
  | (k, pc) :: rest =>
    match (r.lookup k).bind pc.decodeP with
    | none => none
    | some a => (exactDecode rest r).map ((k, a) :: ·)

/-- `Model.from` / `Model.decodeOrThrow`: exact-decode and construct the
instance (`none` = `RuntimeTypeValidationError`). -/
def modelFrom (tag : String) (C : SchemaCodec) (x : RawRec) : Option MInst :=
  (exactDecode C.props x).map fun vals => { tag := tag, values := vals }

/-- The codec part of `Model.encode`: encode each declared property from
the instance's attributes.  (An instance always carries every declared
key; on such instances this equals io-ts exact-encode.) -/
def encodeAttrs (props : List (String × PropCodec)) (vals : RawRec) : RawRec :=
  props.filterMap fun kpc =>
    (vals.lookup kpc.1).map fun v => (kpc.1, kpc.2.encodeP v)

/-- `Model.encode`: `Object.assign(Model._codec.encode(value), { _tag })`. -/
def modelEncode (tag : String) (C : SchemaCodec) (i : MInst) : RawRec :=
  encodeAttrs C.props i.values ++ [("_tag", JVal.s tag)]

/-! ## Concrete fixtures

Closed instantiations used to evaluate the theorems below on concrete
inputs (witnesses and counterexamples). -/

/-- A trivial serialization stack over `ItemKeys` itself: identity
serialization and cipher (satisfying the round-trip contracts). -/
def idWire : CursorWire ItemKeys :=
  { ser := id, deser := some, encrypt := id, decrypt := some }

/-- A concrete item with a GSI3 pair and no other GSI keys. -/
def itemKeysW : ItemKeys :=
  { PK := "PK#hi", SK := "SK#42"
    GSI2PK := none, GSI2SK := none
    GSI3PK := some "G3P", GSI3SK := some "G3S"
    GSI4PK := none, GSI4SK := none
    GSI5PK := none, GSI5SK := none }

/-- A put operation carrying an explicit caller-supplied
`ConditionExpression`. -/
def putOpCx : PutOp Nat :=
  { item := { values := 0, docVersion := none }
    deleted := false, IgnoreExistence := false
    ConditionExpression := some (some "attribute_exists(SK)")
    ExpressionAttributeNames := none, ExpressionAttributeValues := none }

/-- A put operation in the default configuration: no params at all. -/
def putOpW : PutOp Nat :=
  { item := { values := 1, docVersion := none }
    deleted := false, IgnoreExistence := false
    ConditionExpression := none
    ExpressionAttributeNames := none, ExpressionAttributeValues := none }

/-- Union member fixtures over values `(tagView, flag)`: `uA` decodes only
values whose flag is set, `uB` decodes everything, and `uE` — tagged with
the empty string — also decodes everything. -/
def uA : UnionModel (TagView × Bool) Nat :=
  { tag := "A", decodeFrom := fun v => if v.2 then some 1 else none }

def uB : UnionModel (TagView × Bool) Nat :=
  { tag := "B", decodeFrom := fun _ => some 2 }

def uE : UnionModel (TagView × Bool) Nat :=
  { tag := "", decodeFrom := fun _ => some 3 }

/-- The `_tag` extraction for `(tagView, flag)` values. -/
def tagOfW : TagView × Bool → TagView := fun v => v.1

/-- A string-only property codec (decodes only `JVal.s`, identity encode). -/
def pcS : PropCodec :=
  { decodeP := fun v => match v with | .s x => some (.s x) | _ => none
    encodeP := id }

/-- A number-only property codec. -/
def pcN : PropCodec :=
  { decodeP := fun v => match v with | .n x => some (.n x) | _ => none
    encodeP := id }

/-- The `Simple` schema of the end-to-end scenarios:
`{ foo: string, bar: number }`. -/
def simpleSchema : SchemaCodec := { props := [("foo", pcS), ("bar", pcN)] }

/-- A raw input for `simpleSchema` carrying an extraneous key. -/
def simpleRaw : RawRec := [("bar", .n 42), ("foo", .s "hi"), ("junk", .b true)]

/-- The instance decoded from `simpleRaw`. -/
def simpleInst : MInst :=
  { tag := "Simple", values := [("foo", .s "hi"), ("bar", .n 42)] }

/-- 30 transaction pairs `n / rollback 100+n`: two chunks (25 + 5). -/
def wOps : List (BulkOp Nat) :=
  (List.range 30).map fun n => .pair n (some (100 + n))

def wArgs : List (BulkArg Nat) := [.many wOps]

/-- Oracle failing (with a cancellation) exactly on item lists containing
`25` — i.e. on the second action chunk, and on no rollback chunk. -/
def wExec : List Nat → Option String :=
  fun items => if 25 ∈ items then some "TransactionCanceledException" else none

/-- A small three-operation bulk argument list for the chunking witness. -/
def wArgs3 : List (BulkArg Nat) :=
  [.single (.pair 1 (some 101)), .many [.plain 2, .pair 3 none]]

/-! # Theorems -/

/-! ## C7 — pagination argument validation -/

/-- C7, counterexample: the input `{ first: 0, last: 1 }` supplies both
`first` and `last`, yet `decodePagination` does not reject it — JS
truthiness lets `first === 0` slip through every guard (`first && last` is
falsy), so the call succeeds with limit `0` and direction `BACKWARD`.  This
refutes the claim that the combination `first`+`last` is always rejected
with a `PaginationError`. -/
theorem C7_decodePagination_counterexample :
    decodePagination
        { first := some 0, last := some 1, before := none, after := none } =
      Except.ok { cursor := none, limit := 0
                  direction := PaginationDirection.BACKWARD } := by
  rfl

/-- C7, amended: the pair combinations `first`+`last`, `before`+`after`,
`before`+`first` and `last`+`after` are rejected with a `PaginationError`
when both components are truthy (non-null, non-zero, non-empty); on every
input that trips none of the guards (including the positivity guards) the
call succeeds with limit `min(first ?? last ?? 20, 50)` and direction
`BACKWARD` exactly when `before` or `last` is truthy. -/
theorem C7_decodePagination_amended (p : PaginationInput) :
    ((truthyStr p.before && truthyStr p.after) = true →
      ∃ msg, decodePagination p = Except.error msg)
    ∧ ((truthyNum p.first && truthyNum p.last) = true →
      ∃ msg, decodePagination p = Except.error msg)
    ∧ ((truthyStr p.before && truthyNum p.first) = true →
      ∃ msg, decodePagination p = Except.error msg)
    ∧ ((truthyNum p.last && truthyStr p.after) = true →
      ∃ msg, decodePagination p = Except.error msg)
    ∧ ((truthyStr p.before && truthyStr p.after) = false →
      (truthyNum p.first && truthyNum p.last) = false →
      (truthyStr p.before && truthyNum p.first) = false →
      (truthyNum p.last && truthyStr p.after) = false →
      (truthyNum p.first && decide (p.first.getD 0 < 0)) = false →
      (truthyNum p.last && decide (p.last.getD 0 < 0)) = false →
      decodePagination p = Except.ok
        { cursor := nullishStr p.before p.after
          limit := min (nullishNum p.first (nullishNum p.last 20)) 50
          direction :=
            if truthyStr p.before || truthyNum p.last then .BACKWARD
            else .FORWARD }) := by
  refine ⟨?_, ?_, ?_, ?_, ?_⟩
  · intro h
    unfold decodePagination
    split_ifs <;> first | exact ⟨_, rfl⟩ | simp_all
  · intro h
    unfold decodePagination
    split_ifs <;> first | exact ⟨_, rfl⟩ | simp_all
  · intro h
    unfold decodePagination
    split_ifs <;> first | exact ⟨_, rfl⟩ | simp_all
  · intro h
    unfold decodePagination
    split_ifs <;> first | exact ⟨_, rfl⟩ | simp_all
  · intro h1 h2 h3 h4 h5 h6
    unfold decodePagination
    simp [h1, h2, h3, h4, h5, h6]

/-- C7, witness: the amended theorem evaluated on concrete inputs —
`{ first: 2, last: 3 }` is rejected, and `{ first: 100, after: "c" }`
succeeds with the limit capped at 50 and direction `FORWARD`. -/
theorem C7_decodePagination_witness :
    (∃ msg,
      decodePagination
          { first := some 2, last := some 3, before := none, after := none } =
        Except.error msg)
    ∧ decodePagination
          { first := some 100, last := none, before := none, after := some "c" } =
        Except.ok { cursor := some "c", limit := 50
                    direction := PaginationDirection.FORWARD } := by
  refine ⟨(C7_decodePagination_amended _).2.1 (by decide), ?_⟩
  have h :=
    (C7_decodePagination_amended
      { first := some 100, last := none, before := none, after := some "c" }
      ).2.2.2.2 (by decide) (by decide) (by decide) (by decide) (by decide)
        (by decide)
  simpa [nullishStr, nullishNum, truthyStr, truthyNum] using h

/-! ## C6 — cursor round-trip, determinism, decode failure -/

/-- C6: for any serialization/encryption stack satisfying the external
round-trip contracts (base64+JSON deserialize what they serialized; the
fixed-IV cipher decrypts what it encrypted), (1) decoding an emitted
item's cursor yields exactly its `{PK, SK}` when no index (or `GSI1`) is
queried and `{PK, SK, GSInPK, GSInSK}` when `GSIn` (n ∈ 2..5) is queried;
(2) the cursor is a pure function of the item's keys — with the fixed
synthetic IV there is no per-call randomness, so equal items give equal
cursors; (3) any cursor the stack cannot decrypt or deserialize raises
`PaginationError("Couldn't decode cursor")`. -/
theorem C6_cursor_roundtrip {S : Type} (w : CursorWire S)
    (hdeser : ∀ k, w.deser (w.ser k) = some k)
    (hdecrypt : ∀ s, w.decrypt (w.encrypt s) = some s) :
    (∀ (useKey : Bool) (index : Option GsiIndex) (item : ItemKeys),
      decodeDDBCursor w useKey index (encodeDDBCursor w useKey item) =
        Except.ok (expectedCursorKeys item index))
    ∧ (∀ (useKey : Bool) (i j : ItemKeys), i = j →
      encodeDDBCursor w useKey i = encodeDDBCursor w useKey j)
    ∧ (∀ (index : Option GsiIndex) (c : S), w.deser c = none →
      decodeDDBCursor w false index c = Except.error "Couldn\x27t decode cursor")
    ∧ (∀ (index : Option GsiIndex) (c : S), w.decrypt c = none →
      decodeDDBCursor w true index c = Except.error "Couldn\x27t decode cursor")
    ∧ (∀ (index : Option GsiIndex) (c j : S), w.decrypt c = some j →
      w.deser j = none →
      decodeDDBCursor w true index c =
        Except.error "Couldn\x27t decode cursor") := by
  refine ⟨?_, ?_, ?_, ?_, ?_⟩
  · intro useKey index item
    rcases index with _ | g
    · cases useKey <;>
        simp [encodeDDBCursor, decodeDDBCursor, hdeser, hdecrypt,
          expectedCursorKeys]
    · cases g <;> cases useKey <;>
        simp [encodeDDBCursor, decodeDDBCursor, hdeser, hdecrypt,
          expectedCursorKeys]
  · intro useKey i j hij
    rw [hij]
  · intro index c hc
    simp [decodeDDBCursor, hc]
  · intro index c hc
    simp [decodeDDBCursor, hc]
  · intro index c j hc hj
    simp [decodeDDBCursor, hc, hj]

/-- C6, witness: the round-trip conjunct evaluated on the identity stack
at a concrete item queried through `GSI3`. -/
theorem C6_cursor_roundtrip_witness :
    decodeDDBCursor idWire true (some .GSI3)
        (encodeDDBCursor idWire true itemKeysW) =
      Except.ok (.indexed .GSI3 "PK#hi" "SK#42" (some "G3P") (some "G3S")) :=
  (C6_cursor_roundtrip idWire (fun _ => rfl) (fun _ => rfl)).1 true
    (some .GSI3) itemKeysW

/-! ## C1 — put conditions and error wrapping -/

/-- C1, counterexample: a put carrying an explicit caller-supplied
`ConditionExpression` whose conditional check fails.  `Client.put`
rethrows the underlying store error (`code:
"ConditionalCheckFailedException"`) unchanged — it does not produce the
library's typed `ConditionalCheckFailedError` (which only `updateRaw`
throws).  This refutes the claim that an explicit condition's failure
"raises ConditionalCheckFailedError". -/
theorem C1_put_counterexample :
    clientPut (fun (_ : Nat) => "P") (fun _ => "S") (fun _ => []) id putOpCx
        (some "ConditionalCheckFailedException") =
      Except.error (.aws "ConditionalCheckFailedException")
    ∧ DBError.aws "ConditionalCheckFailedException" ≠
        DBError.conditionalCheckFailed := by
  exact ⟨rfl, by decide⟩

/-- C1, amended: with no caller-supplied `conditionExpression` and
`ignoreExistence` unset, the write is conditioned on
`attribute_not_exists(PK)` and a conditional failure raises
`KeyExistsError`; a caller-supplied (truthy) `conditionExpression`
replaces the default and its conditional failure is rethrown as the
underlying store error (`ConditionalCheckFailedException`) — not wrapped
in `KeyExistsError`, and not the library's `ConditionalCheckFailedError`;
with `ignoreExistence` set (and no explicit condition) no existence
condition is applied. -/
theorem C1_put_amended {V : Type} (pk sk : V → String)
    (gsis : V → List (String × Option String)) (encodeBody : V → V)
    (op : PutOp V) (outcome : Option String) :
    (op.ConditionExpression = none → op.IgnoreExistence = false →
      effectiveConditionExpression op = some "attribute_not_exists(PK)"
      ∧ (outcome = some "ConditionalCheckFailedException" →
          clientPut pk sk gsis encodeBody op outcome =
            Except.error .keyExists))
    ∧ (∀ e, op.ConditionExpression = some (some e) → e ≠ "" →
      effectiveConditionExpression op = some e
      ∧ (outcome = some "ConditionalCheckFailedException" →
          clientPut pk sk gsis encodeBody op outcome =
              Except.error (.aws "ConditionalCheckFailedException")
          ∧ clientPut pk sk gsis encodeBody op outcome ≠
              Except.error .conditionalCheckFailed
          ∧ clientPut pk sk gsis encodeBody op outcome ≠
              Except.error .keyExists))
    ∧ (op.ConditionExpression = none → op.IgnoreExistence = true →
      effectiveConditionExpression op = none) := by
  refine ⟨?_, ?_, ?_⟩
  · intro hc hi
    refine ⟨by simp [effectiveConditionExpression, hc, hi], ?_⟩
    intro ho
    simp [clientPut, ho, condTruthy, hc]
  · intro e hc he
    refine ⟨by simp [effectiveConditionExpression, hc], ?_⟩
    intro ho
    have : condTruthy op.ConditionExpression = true := by
      simp [condTruthy, hc, he]
    refine ⟨by simp [clientPut, ho, this], ?_, ?_⟩ <;>
      simp [clientPut, ho, this]
  · intro hc hi
    simp [effectiveConditionExpression, hc, hi]

/-- C1, witness: the amended theorem evaluated on a param-less put — the
default existence guard is sent, and its conditional failure surfaces as
`KeyExistsError`. -/
theorem C1_put_witness :
    effectiveConditionExpression putOpW = some "attribute_not_exists(PK)"
    ∧ clientPut (fun (_ : Nat) => "P") (fun _ => "S") (fun _ => []) id putOpW
        (some "ConditionalCheckFailedException") =
      Except.error .keyExists := by
  have h :=
    (C1_put_amended (fun (_ : Nat) => "P") (fun _ => "S") (fun _ => []) id
      putOpW (some "ConditionalCheckFailedException")).1 rfl rfl
  exact ⟨h.1, h.2 rfl⟩

/-! ## C4 — `_docVersion` lifecycle and optimistic concurrency -/

/-- C4, counterexample: an in-place update of an instance whose
`_docVersion` is not a number (`docVersion = none`, as on a freshly
constructed instance).  The generated put operation carries
`ConditionExpression: undefined` (`some none` — the key present, holding
`undefined`) instead of the claimed
`attribute_not_exists(_docVersion) OR _docVersion = :v` guard, refuting
the claim's "for every in-place update". -/
theorem C4_docVersion_counterexample :
    updateOperation (fun (_ : Nat) => "PK") (fun _ => "SK")
        (fun v (_ : Nat) => v) { values := 7, docVersion := none } 0 =
      .inPlace
        { item := { values := 7, docVersion := some 1 }
          deleted := false, IgnoreExistence := false
          ConditionExpression := some none
          ExpressionAttributeNames := none
          ExpressionAttributeValues := none } := by
  rfl

/-- C4, amended: the stored `_docVersion` of a first put of a fresh
instance (no numeric `_docVersion`) is `0`; every in-place update builds
the new instance with `_docVersion = (previous ?? 0) + 1`; and whenever
the pre-image `_docVersion` *is a number* `v`, the single put is
conditioned on `attribute_not_exists(#docVersion) OR #docVersion =
:docVersion` with `:docVersion = v`, and its conditional failure raises
`RaceConditionError`.  (When the pre-image `_docVersion` is not a number
the operation instead carries `ConditionExpression: undefined` — see the
counterexample.) -/
theorem C4_docVersion_amended {V P : Type} (pk sk : V → String)
    (gsis : V → List (String × Option String)) (encodeBody : V → V)
    (merge : V → P → V) :
    (∀ v : V,
      (dynamoDBEncode pk sk gsis encodeBody
        { values := v, docVersion := none }).docVersion = 0)
    ∧ (∀ (item : Inst V) (attrs : P) (op : PutOp V),
      updateOperation pk sk merge item attrs = .inPlace op →
      op.item.docVersion = some (item.docVersion.getD 0 + 1))
    ∧ (∀ (item : Inst V) (attrs : P) (v : Int),
      item.docVersion = some v →
      pk item.values = pk (merge item.values attrs) →
      sk item.values = sk (merge item.values attrs) →
      ∃ op, updateOperation pk sk merge item attrs = .inPlace op
        ∧ op.ConditionExpression =
            some (some
              "attribute_not_exists(#docVersion) OR #docVersion = :docVersion")
        ∧ op.ExpressionAttributeValues = some (some [(":docVersion", v)])
        ∧ op.ExpressionAttributeNames =
            some (some [("#docVersion", "_docVersion")])
        ∧ op.item.docVersion = some (v + 1)
        ∧ instanceUpdate pk sk gsis encodeBody merge item attrs
            (some "ConditionalCheckFailedException") none =
          Except.error (.raceCondition
            "The instance you are attempting to update is out of sync with the stored value.")) := by
  refine ⟨?_, ?_, ?_⟩
  · intro v
    rfl
  · intro item attrs op h
    unfold updateOperation at h
    split at h <;> dsimp only at h <;> split at h <;> simp_all [bareOp] <;>
      (subst h; rfl)
  · intro item attrs v hdv hpk hsk
    refine
      ⟨{ item := { values := merge item.values attrs
                   docVersion := some (v + 1) }
         deleted := false, IgnoreExistence := false
         ConditionExpression :=
           some (some
             "attribute_not_exists(#docVersion) OR #docVersion = :docVersion")
         ExpressionAttributeNames := some (some [("#docVersion", "_docVersion")])
         ExpressionAttributeValues := some (some [(":docVersion", v)]) },
       ?_, rfl, rfl, rfl, rfl, ?_⟩
    · simp [updateOperation, bareOp, hdv, hpk.symm, hsk.symm]
    · simp [instanceUpdate, updateOperation, bareOp, clientPut, condTruthy,
        DBError.code, hdv, hpk.symm, hsk.symm]

/-- C4, witness: the amended theorem's conditioned-update conjunct
evaluated at a concrete instance with `_docVersion = 3`: the put carries
the version guard with `:docVersion = 3`, the new instance carries
version `4`, and a conditional failure surfaces as
`RaceConditionError`. -/
theorem C4_docVersion_witness :
    ∃ op,
      updateOperation (fun (_ : Nat) => "K") (fun _ => "S")
          (fun v (_ : Nat) => v) { values := 9, docVersion := some 3 } 5 =
        .inPlace op
      ∧ op.ConditionExpression =
          some (some
            "attribute_not_exists(#docVersion) OR #docVersion = :docVersion")
      ∧ op.ExpressionAttributeValues = some (some [(":docVersion", 3)])
      ∧ op.ExpressionAttributeNames =
          some (some [("#docVersion", "_docVersion")])
      ∧ op.item.docVersion = some (3 + 1)
      ∧ instanceUpdate (fun (_ : Nat) => "K") (fun _ => "S") (fun _ => [])
          id (fun v (_ : Nat) => v) { values := 9, docVersion := some 3 } 5
          (some "ConditionalCheckFailedException") none =
        Except.error (.raceCondition
          "The instance you are attempting to update is out of sync with the stored value.") :=
  (C4_docVersion_amended (fun (_ : Nat) => "K") (fun _ => "S") (fun _ => [])
    id (fun v (_ : Nat) => v)).2.2 { values := 9, docVersion := some 3 } 5 3
    rfl rfl rfl

/-! ## C10 — non-numeric `_docVersion`: the in-place update is
unconditional -/

/-- C10: for an in-place update of an instance whose `_docVersion` is not
a number, the generated put operation explicitly carries
`ConditionExpression: undefined`; the object spread in `Client.put` lets
that key override the default `attribute_not_exists(PK)` guard, so the
native put is sent with no condition at all.  Under the store's contract
that a conditional check can only fail when a condition expression was
sent, such an update can raise neither `KeyExistsError` nor
`RaceConditionError`. -/
theorem C10_nonnumeric_update_unconditional {V P : Type}
    (pk sk : V → String) (gsis : V → List (String × Option String))
    (encodeBody : V → V) (merge : V → P → V) (item : Inst V) (attrs : P)
    (hdv : item.docVersion = none)
    (hpk : pk item.values = pk (merge item.values attrs))
    (hsk : sk item.values = sk (merge item.values attrs)) :
    ∃ op, updateOperation pk sk merge item attrs = .inPlace op
      ∧ op.ConditionExpression = some none
      ∧ effectiveConditionExpression op = none
      ∧ (∀ storeOutcome : Option String,
          (effectiveConditionExpression op = none →
            storeOutcome ≠ some "ConditionalCheckFailedException") →
          instanceUpdate pk sk gsis encodeBody merge item attrs
              storeOutcome none ≠ Except.error .keyExists
          ∧ ∀ msg, instanceUpdate pk sk gsis encodeBody merge item attrs
              storeOutcome none ≠ Except.error (.raceCondition msg)) := by
  have hop : updateOperation pk sk merge item attrs =
      .inPlace { bareOp { values := merge item.values attrs
                          docVersion := some (item.docVersion.getD 0 + 1) } with
                 ConditionExpression := some none } := by
    simp [updateOperation, hdv, hpk.symm, hsk.symm]
  refine ⟨_, hop, rfl, rfl, ?_⟩
  intro storeOutcome hcontract
  have hno : storeOutcome ≠ some "ConditionalCheckFailedException" :=
    hcontract rfl
  rcases storeOutcome with _ | code
  · simp [instanceUpdate, hop, clientPut]
  · have hcode : code ≠ "ConditionalCheckFailedException" := by
      intro h
      exact hno (by rw [h])
    constructor
    · simp [instanceUpdate, hop, clientPut, condTruthy, hcode,
        DBError.code]
    · intro msg
      simp [instanceUpdate, hop, clientPut, condTruthy, hcode,
        DBError.code]

/-- C10, witness: the theorem evaluated at a concrete fresh instance and
a store outcome of a (non-conditional) transport error. -/
theorem C10_nonnumeric_update_witness :
    ∃ op,
      updateOperation (fun (_ : Nat) => "Q") (fun _ => "R")
          (fun _ (p : Nat) => p) { values := 4, docVersion := none } 4 =
        .inPlace op
      ∧ op.ConditionExpression = some none
      ∧ effectiveConditionExpression op = none
      ∧ (∀ storeOutcome : Option String,
          (effectiveConditionExpression op = none →
            storeOutcome ≠ some "ConditionalCheckFailedException") →
          instanceUpdate (fun (_ : Nat) => "Q") (fun _ => "R") (fun _ => [])
              id (fun _ (p : Nat) => p) { values := 4, docVersion := none } 4
              storeOutcome none ≠ Except.error .keyExists
          ∧ ∀ msg, instanceUpdate (fun (_ : Nat) => "Q") (fun _ => "R")
              (fun _ => []) id (fun _ (p : Nat) => p)
              { values := 4, docVersion := none } 4 storeOutcome none ≠
              Except.error (.raceCondition msg)) :=
  C10_nonnumeric_update_unconditional (fun (_ : Nat) => "Q") (fun _ => "R")
    (fun _ => []) id (fun _ (p : Nat) => p)
    { values := 4, docVersion := none } 4 rfl rfl rfl

/-! ## C5 — union decoding: tag priority, declaration order, failure -/

section UnionLemmas

variable {V I : Type}

/-- The `_modelMap` fold ignores members whose tag differs. -/
theorem foldl_modelMap_skip (t : String) (ms : List (UnionModel V I))
    (acc : Option (UnionModel V I)) (h : ∀ m ∈ ms, m.tag ≠ t) :
    ms.foldl (fun acc m => if m.tag = t then some m else acc) acc = acc := by
  induction ms generalizing acc with
  | nil => rfl
  | cons m ms ih =>
    have hm : m.tag ≠ t := h m (by simp)
    simp only [List.foldl_cons, if_neg hm]
    exact ih acc fun m' hm' => h m' (by simp [hm'])

/-- With pairwise-distinct tags, JS `Map` lookup (last occurrence wins)
agrees with first-occurrence search. -/
theorem modelMapGet_eq_find (models : List (UnionModel V I)) (t : String)
    (hnodup : (models.map (·.tag)).Nodup) :
    modelMapGet models t = models.find? (fun m => m.tag = t) := by
  induction models with
  | nil => rfl
  | cons m ms ih =>
    simp only [List.map_cons, List.nodup_cons] at hnodup
    by_cases hm : m.tag = t
    · have hrest : ∀ m' ∈ ms, m'.tag ≠ t := by
        intro m' hm' h'
        have heq : m.tag = m'.tag := by rw [hm, h']
        exact hnodup.1 (heq ▸ List.mem_map_of_mem _ hm')
      unfold modelMapGet
      rw [List.foldl_cons, if_pos hm, foldl_modelMap_skip t ms _ hrest,
        List.find?_cons_of_pos _ (by simpa using hm)]
    · unfold modelMapGet
      rw [List.foldl_cons, if_neg hm,
        List.find?_cons_of_neg _ (by simpa using hm)]
      exact ih hnodup.2

/-- The `_modelMap` fold yields a member or its initial accumulator. -/
theorem foldl_modelMap_mem (t : String) :
    ∀ (models : List (UnionModel V I)) (acc : Option (UnionModel V I))
      (m : UnionModel V I),
      models.foldl (fun acc m => if m.tag = t then some m else acc) acc =
        some m → m ∈ models ∨ acc = some m := by
  intro models
  induction models with
  | nil =>
    intro acc m h'
    exact Or.inr h'
  | cons x xs ih =>
    intro acc m h'
    rw [List.foldl_cons] at h'
    rcases ih _ _ h' with h'' | h''
    · exact Or.inl (List.mem_cons_of_mem _ h'')
    · by_cases hx : x.tag = t
      · rw [if_pos hx] at h''
        cases Option.some_inj.mp h''
        exact Or.inl (List.mem_cons_self x xs)
      · rw [if_neg hx] at h''
        exact Or.inr h''

/-- A successful `_modelMap` lookup returns a member. -/
theorem modelMapGet_mem (models : List (UnionModel V I)) (t : String)
    (m : UnionModel V I) (h : modelMapGet models t = some m) : m ∈ models := by
  rcases foldl_modelMap_mem t models none m h with h'' | h''
  · exact h''
  · cases h''

/-- If every member of a list rejects `v`, trial in declaration order
yields nothing. -/
theorem firstSuccess_eq_none (v : V) (l : List (UnionModel V I))
    (h : ∀ m ∈ l, m.decodeFrom v = none) : firstSuccess v l = none := by
  induction l with
  | nil => rfl
  | cons m ms ih =>
    unfold firstSuccess
    rw [h m (by simp)]
    exact ih fun m' hm' => h m' (by simp [hm'])

end UnionLemmas

/-- C5, counterexample: two concrete inputs on which the claim as stated
fails.  (1) `decodeOrThrow(null)`: since `typeof null === "object"`, the
source dereferences `(null)._tag` and throws a raw `TypeError` before any
member is tried — not the claimed validation error, although no member
decodes the value.  (2) A value whose string `_tag` is `""` matching the
member tagged `""` (which decodes every value): the falsy `""` skips the
preferred trial, and the fallback filter `model._tag !== ""` removes that
member, so it is never tried and the union fails although a matching
member decodes the value. -/
theorem C5_union_decode_counterexample :
    unionDecodeOrThrow [uA, uB] tagOfW (TagView.isNull, false) =
      Except.error UnionDecodeError.typeError
    ∧ (Except.error UnionDecodeError.typeError : Except UnionDecodeError Nat) ≠
        Except.error (.validation
          "Couldn\x27t decode using any of the provided union types.")
    ∧ unionDecodeOrThrow [uA, uE] tagOfW (TagView.strTag "", false) =
        Except.error (.validation
          "Couldn\x27t decode using any of the provided union types.")
    ∧ uE.decodeFrom (TagView.strTag "", false) = some 3 :=
  ⟨rfl, fun h => UnionDecodeError.noConfusion (Except.error.inj h), rfl, rfl⟩

/-- C5, amended: with pairwise-distinct member tags (the spec's
precondition), `Union.decodeOrThrow` (1) coincides with the amended
algorithm `specUnionDecode`; (2) throws the raw `TypeError` on a `null`
value before trying any member; (3) fails with the validation error
`"Couldn't decode using any of the provided union types."` whenever the
value is not `null` and no member decodes it; (4) returns the tag-matched
member's result whenever the value's string `_tag` is truthy (non-empty),
matches that member, and the member succeeds; (5) on an empty-string
`_tag` skips the preferred trial and tries exactly the members whose tag
is not `""` — excluding the `""`-tagged member — in declaration order. -/
theorem C5_union_decode_amended {V I : Type} (models : List (UnionModel V I))
    (tagOf : V → TagView) (hnodup : (models.map (·.tag)).Nodup) (v : V) :
    unionDecodeOrThrow models tagOf v = specUnionDecode models tagOf v
    ∧ (tagOf v = .isNull →
      unionDecodeOrThrow models tagOf v =
        Except.error UnionDecodeError.typeError)
    ∧ ((∀ m ∈ models, m.decodeFrom v = none) → tagOf v ≠ .isNull →
      unionDecodeOrThrow models tagOf v = Except.error (.validation
        "Couldn\x27t decode using any of the provided union types."))
    ∧ (∀ t m i, tagOf v = .strTag t → t ≠ "" → m ∈ models → m.tag = t →
      m.decodeFrom v = some i →
      unionDecodeOrThrow models tagOf v = Except.ok i)
    ∧ (tagOf v = .strTag "" →
      unionDecodeOrThrow models tagOf v =
        (match firstSuccess v (models.filter fun m => m.tag ≠ "") with
         | some i => Except.ok i
         | none => Except.error (.validation
             "Couldn\x27t decode using any of the provided union types."))) := by
  refine ⟨?_, ?_, ?_, ?_, ?_⟩
  · unfold unionDecodeOrThrow specUnionDecode
    rcases ht : tagOf v with _ | _ | t
    · simp [ht]
    · simp [ht]
    · simp only [ht]
      by_cases ht0 : t = ""
      · subst ht0
        simp
      · have hbt : (t != "") = true := by simpa using ht0
        simp only [hbt, if_true, if_pos ht0]
        rw [modelMapGet_eq_find models t hnodup]
        rcases hf : models.find? (fun m => m.tag = t) with _ | m
        · simp [hf]
        · rcases hd : m.decodeFrom v with _ | i <;> simp [hf, hd]
  · intro ht
    unfold unionDecodeOrThrow
    simp [ht]
  · intro hall hnn
    unfold unionDecodeOrThrow
    rcases ht : tagOf v with _ | _ | t
    · exact absurd ht hnn
    · simp only [ht]
      rw [firstSuccess_eq_none v models hall]
    · simp only [ht]
      have hpref : (if t != "" then
          match modelMapGet models t with
          | some m => m.decodeFrom v
          | none => none
        else none) = (none : Option I) := by
        by_cases hbt : (t != "") = true
        · rw [if_pos hbt]
          rcases hg : modelMapGet models t with _ | m
          · rfl
          · exact hall m (modelMapGet_mem models t m hg)
        · rw [if_neg hbt]
      rw [hpref]
      rw [firstSuccess_eq_none v _
        fun m' hm' => hall m' (List.mem_of_mem_filter hm')]
  · intro t m i ht ht0 hm htag hd
    have hex : (models.find? (fun m' => m'.tag = t)).isSome := by
      rw [List.find?_isSome]
      exact ⟨m, hm, by simp [htag]⟩
    rcases hfind : models.find? (fun m' => m'.tag = t) with _ | m'
    · rw [hfind] at hex
      simp at hex
    · have hm'tag : m'.tag = t := by simpa using List.find?_some hfind
      have hm'mem : m' ∈ models := List.mem_of_find?_eq_some hfind
      have hmm : m' = m :=
        List.inj_on_of_nodup_map hnodup hm'mem hm (by rw [hm'tag, htag])
      subst hmm
      unfold unionDecodeOrThrow
      simp only [ht]
      have hbt : (t != "") = true := by simpa using ht0
      rw [modelMapGet_eq_find models t hnodup]
      simp [hbt, hfind, hd]
  · intro ht
    unfold unionDecodeOrThrow
    simp [ht]

/-- C5, witness: the amended theorem on concrete inputs — scenario S3
(the member matching the truthy `_tag = "B"` wins although `uA`, declared
first, also decodes the value), and a `null` value surfacing the raw
`TypeError`. -/
theorem C5_union_decode_witness :
    unionDecodeOrThrow [uA, uB] tagOfW (TagView.strTag "B", true) =
      Except.ok 2
    ∧ unionDecodeOrThrow [uA, uB] tagOfW (TagView.isNull, true) =
        Except.error UnionDecodeError.typeError :=
  ⟨(C5_union_decode_amended [uA, uB] tagOfW (by decide)
      (TagView.strTag "B", true)).2.2.2.1 "B" uB 2 rfl (by decide)
      (by simp) rfl rfl,
   (C5_union_decode_amended [uA, uB] tagOfW (by decide)
      (TagView.isNull, true)).2.1 rfl⟩

/-! ## C8 — per-property sub-codec resolution -/

mutual

/-- `encodeProp` is exactly sub-codec resolution followed by the resolved
encoder: the first matching declared property wins, and a codec with no
match (in particular any `RefinementType`/`ReadonlyType`/`StrictType`
wrapper) throws `"No matching codec found."`. -/
theorem encodeProp_eq_resolveProp {β : Type} :
    ∀ (c : Codec β) (key : String) (v : β),
      encodeProp c key v =
        (match resolveProp c key with
         | some enc => Except.ok (enc v)
         | none => Except.error "No matching codec found.")
  | .interfaceTy props, key, v => by
    simp only [encodeProp, resolveProp]
  | .partialTy props, key, v => by
    simp only [encodeProp, resolveProp]
  | .strictTy props, key, v => by
    simp only [encodeProp, resolveProp]
  | .exactTy c, key, v => by
    simp only [encodeProp, resolveProp]
    exact encodeProp_eq_resolveProp c key v
  | .refinementTy c, key, v => by
    simp only [encodeProp, resolveProp]
  | .readonlyTy c, key, v => by
    simp only [encodeProp, resolveProp]
  | .intersectionTy cs, key, v => by
    simp only [encodeProp, resolveProp]
    exact encodePropFirst_eq_resolvePropFirst cs key v

/-- The intersection-member loop of `encodeProp` is first-match
resolution: a member's failure depends only on the codec structure and the
key (property encoders are total), so catching it and moving on equals
skipping members that resolve nothing. -/
theorem encodePropFirst_eq_resolvePropFirst {β : Type} :
    ∀ (cs : List (Codec β)) (key : String) (v : β),
      encodePropFirst cs key v =
        (match resolvePropFirst cs key with
         | some enc => Except.ok (enc v)
         | none => Except.error "No matching codec found.")
  | [], _, _ => rfl
  | c :: cs, key, v => by
    simp only [encodePropFirst, resolvePropFirst]
    rw [encodeProp_eq_resolveProp c key v]
    cases resolveProp c key
    · simpa using encodePropFirst_eq_resolvePropFirst cs key v
    · rfl

end

/-- C8, counterexample: a `RefinementType` wrapping an interface that
declares the requested property.  `encodeProp` throws
`"No matching codec found."` instead of descending through the refinement
wrapper and returning the sub-codec's encoding (`Except.ok 1`), refuting
the claim that the walker descends refinement (and readonly) wrappers. -/
theorem C8_encodeProp_counterexample :
    encodeProp
        (Codec.refinementTy (Codec.interfaceTy [("a", fun x : Nat => x + 1)]))
        "a" 0 =
      Except.error "No matching codec found."
    ∧ modelEncodeProp
        (Codec.readonlyTy (Codec.interfaceTy [("a", fun x : Nat => x + 1)]))
        "a" 0 = 0 := by
  exact ⟨rfl, rfl⟩

/-- C8, amended: `encodeProp(root, key, value)` descends through
intersection, exact, partial and interface shapes and returns the first
matching sub-codec's encoding, failing with `"No matching codec found."`
when none matches — but it does *not* descend `RefinementType` or
`ReadonlyType` wrappers (those always fail; only `getProps` walks them);
`Model.encodeProp(key, value)` runs the walker against
`t.exact(codec)` and returns the value unchanged when no sub-codec
matches. -/
theorem C8_encodeProp_amended {β : Type} (c : Codec β) (key : String)
    (v : β) :
    (encodeProp c key v =
      (match resolveProp c key with
       | some enc => Except.ok (enc v)
       | none => Except.error "No matching codec found."))
    ∧ (∀ sub : Codec β, resolveProp (Codec.refinementTy sub) key = none
        ∧ resolveProp (Codec.readonlyTy sub) key = none)
    ∧ (resolveProp (Codec.exactTy c) key = none → modelEncodeProp c key v = v)
    ∧ (∀ enc, resolveProp (Codec.exactTy c) key = some enc →
        modelEncodeProp c key v = enc v) := by
  refine ⟨encodeProp_eq_resolveProp c key v, fun _ => ⟨rfl, rfl⟩, ?_, ?_⟩
  · intro h
    unfold modelEncodeProp
    rw [encodeProp_eq_resolveProp, h]
  · intro enc h
    unfold modelEncodeProp
    rw [encodeProp_eq_resolveProp, h]

/-- C8, witness: the amended theorem evaluated on an
intersection-of-interfaces codec — the second member declares `"b"`, and
the model-level encode falls back to the unchanged value for an
undeclared key. -/
theorem C8_encodeProp_witness :
    encodeProp
        (Codec.intersectionTy
          [Codec.interfaceTy [("a", fun x : Nat => x + 1)],
           Codec.interfaceTy [("b", fun x : Nat => x * 2)]])
        "b" 21 =
      (match
          resolveProp
            (Codec.intersectionTy
              [Codec.interfaceTy [("a", fun x : Nat => x + 1)],
               Codec.interfaceTy [("b", fun x : Nat => x * 2)]]) "b" with
        | some enc => Except.ok (enc 21)
        | none => Except.error "No matching codec found.")
    ∧ modelEncodeProp (Codec.interfaceTy [("a", fun x : Nat => x + 1)])
        "zzz" 5 = 5 := by
  refine ⟨(C8_encodeProp_amended _ "b" 21).1, ?_⟩
  exact (C8_encodeProp_amended
    (Codec.interfaceTy [("a", fun x : Nat => x + 1)]) "zzz" 5).2.2.1 rfl

/-! ## C9 — model decode/encode round-trip -/

/-- A successful exact decode binds exactly the declared keys, in
declaration order. -/
theorem exactDecode_keys :
    ∀ (props : List (String × PropCodec)) (r vals : RawRec),
      exactDecode props r = some vals →
      vals.map Prod.fst = props.map Prod.fst := by
  intro props
  induction props with
  | nil =>
    intro r vals h
    simp only [exactDecode] at h
    cases h
    rfl
  | cons kpc rest ih =>
    intro r vals h
    simp only [exactDecode] at h
    rcases hb : (r.lookup kpc.1).bind kpc.2.decodeP with _ | a <;> rw [hb] at h
    · cases h
    · rcases Option.map_eq_some'.mp h with ⟨vtail, htail, hv⟩
      subst hv
      simp [ih r vtail htail]

/-- Decoding skips a prepended binding whose key is not declared. -/
theorem exactDecode_cons_irrel :
    ∀ (props : List (String × PropCodec)) (k : String) (x : JVal) (F : RawRec),
      k ∉ props.map Prod.fst →
      exactDecode props ((k, x) :: F) = exactDecode props F := by
  intro props
  induction props with
  | nil =>
    intro k x F _
    rfl
  | cons kpc rest ih =>
    intro k x F hk
    have hne : kpc.1 ≠ k := by
      intro h
      exact hk (by simp [← h])
    simp only [exactDecode]
    rw [show List.lookup kpc.1 ((k, x) :: F) = List.lookup kpc.1 F by
          simp [List.lookup, beq_false_of_ne hne],
        ih k x F fun h => hk (by simp [h])]

/-- `encodeAttrs` reads only the declared keys. -/
theorem encodeAttrs_congr :
    ∀ (props : List (String × PropCodec)) (v1 v2 : RawRec),
      (∀ k ∈ props.map Prod.fst, v1.lookup k = v2.lookup k) →
      encodeAttrs props v1 = encodeAttrs props v2 := by
  intro props
  induction props with
  | nil =>
    intro v1 v2 _
    rfl
  | cons kpc rest ih =>
    intro v1 v2 h
    simp only [encodeAttrs, List.filterMap_cons]
    rw [h kpc.1 (by simp)]
    have hrest := ih v1 v2 fun k hk => h k (by simp [hk])
    simp only [encodeAttrs] at hrest
    rw [hrest]

/-- Every key emitted by `encodeAttrs` is a declared key. -/
theorem encodeAttrs_keys_sub :
    ∀ (props : List (String × PropCodec)) (vals : RawRec) (k : String),
      k ∈ (encodeAttrs props vals).map Prod.fst →
      k ∈ props.map Prod.fst := by
  intro props vals k hk
  rcases List.mem_map.mp hk with ⟨⟨k', w⟩, hmem, hfst⟩
  rcases List.mem_filterMap.mp hmem with ⟨⟨k'', pc⟩, hp, hf⟩
  rcases Option.map_eq_some'.mp hf with ⟨v, _, hv⟩
  cases hv
  subst hfst
  exact List.mem_map.mpr ⟨(k'', pc), hp, rfl⟩

/-- Association lookup passes over a prefix that does not bind the key. -/
theorem lookup_append_right :
    ∀ (l1 l2 : RawRec) (k : String), k ∉ l1.map Prod.fst →
      (l1 ++ l2).lookup k = l2.lookup k := by
  intro l1
  induction l1 with
  | nil =>
    intro l2 k _
    rfl
  | cons kv rest ih =>
    intro l2 k hk
    have hne : k ≠ kv.1 := by
      intro h
      exact hk (by simp [h])
    simp only [List.cons_append, List.lookup, beq_false_of_ne hne]
    exact ih l2 k fun h => hk (by simp [h])

/-- Round-trip kernel: decoding the encoded attributes (under any tail,
e.g. the `_tag` annotation) recovers the decoded values, given the io-ts
codec law `decode(encode(a)) = right(a)` for canonical values. -/
theorem exactDecode_roundtrip_aux :
    ∀ (props : List (String × PropCodec)) (r vals tail : RawRec),
      (props.map Prod.fst).Nodup →
      (∀ p ∈ props, ∀ v a, p.2.decodeP v = some a →
        p.2.decodeP (p.2.encodeP a) = some a) →
      exactDecode props r = some vals →
      exactDecode props (encodeAttrs props vals ++ tail) = some vals := by
  intro props
  induction props with
  | nil =>
    intro r vals tail _ _ h
    simpa [exactDecode] using h
  | cons kpc rest ih =>
    intro r vals tail hnodup hlaw h
    obtain ⟨k, pc⟩ := kpc
    simp only [List.map_cons, List.nodup_cons] at hnodup
    simp only [exactDecode] at h
    rcases hb : (r.lookup k).bind pc.decodeP with _ | a <;> rw [hb] at h
    · cases h
    · rcases Option.map_eq_some'.mp h with ⟨vtail, htail, hv⟩
      subst hv
      rcases Option.bind_eq_some.mp hb with ⟨b, _, hdec⟩
      have hlawhead := hlaw (k, pc) (by simp) b a hdec
      have henc :
          encodeAttrs ((k, pc) :: rest) ((k, a) :: vtail) =
            (k, pc.encodeP a) :: encodeAttrs rest vtail := by
        simp only [encodeAttrs, List.filterMap_cons]
        rw [show List.lookup k ((k, a) :: vtail) = some a by
              simp [List.lookup]]
        have : encodeAttrs rest ((k, a) :: vtail) = encodeAttrs rest vtail :=
          encodeAttrs_congr rest _ _ fun k' hk' => by
            have hne : k' ≠ k := fun h => hnodup.1 (h ▸ hk')
            simp [List.lookup, beq_false_of_ne hne]
        simpa [encodeAttrs] using this
      rw [henc]
      simp only [exactDecode, List.cons_append]
      rw [show List.lookup k ((k, pc.encodeP a) ::
            (encodeAttrs rest vtail ++ tail)) = some (pc.encodeP a) by
            simp [List.lookup]]
      rw [show (some (pc.encodeP a)).bind pc.decodeP = some a by
            simpa using hlawhead]
      rw [exactDecode_cons_irrel rest k _ _ hnodup.1,
        ih r vtail tail hnodup.2
          (fun p hp => hlaw p (by simp [hp])) htail]
      rfl

/-- C9: for every valid input `x` against codec `C` and tag `T` (schema
keys pairwise distinct, `_tag` not a schema key, property codecs
satisfying the io-ts round-trip law), `Model.from(x).encode()` carries
`_tag = T`, emits no key outside the declared schema plus `_tag`, and
`Model.from(Model.from(x).encode())` equals `Model.from(x)` on the schema
attributes (indeed as a whole instance). -/
theorem C9_model_roundtrip (tag : String) (C : SchemaCodec) (x : RawRec)
    (i : MInst) (hnodup : (C.props.map Prod.fst).Nodup)
    (htag : "_tag" ∉ C.props.map Prod.fst)
    (hlaw : ∀ p ∈ C.props, ∀ v a, p.2.decodeP v = some a →
      p.2.decodeP (p.2.encodeP a) = some a)
    (hx : modelFrom tag C x = some i) :
    (modelEncode tag C i).lookup "_tag" = some (JVal.s tag)
    ∧ (∀ k ∈ (modelEncode tag C i).map Prod.fst,
        k ∈ C.props.map Prod.fst ∨ k = "_tag")
    ∧ modelFrom tag C (modelEncode tag C i) = some i := by
  rcases Option.map_eq_some'.mp hx with ⟨vals, hdec, hi⟩
  refine ⟨?_, ?_, ?_⟩
  · unfold modelEncode
    rw [lookup_append_right _ _ _
      fun h => htag (encodeAttrs_keys_sub C.props i.values "_tag" h)]
    simp [List.lookup]
  · intro k hk
    unfold modelEncode at hk
    rw [List.map_append] at hk
    rcases List.mem_append.mp hk with h | h
    · exact Or.inl (encodeAttrs_keys_sub C.props i.values k h)
    · simp at h
      exact Or.inr h
  · unfold modelFrom modelEncode
    rw [← hi]
    rw [exactDecode_roundtrip_aux C.props x vals _ hnodup hlaw hdec]
    rfl

/-- C9, witness: the round-trip theorem evaluated on the `Simple` schema
`{foo: string, bar: number}` with an input carrying an extraneous key. -/
theorem C9_model_roundtrip_witness :
    (modelEncode "Simple" simpleSchema simpleInst).lookup "_tag" =
      some (JVal.s "Simple")
    ∧ modelFrom "Simple" simpleSchema
        (modelEncode "Simple" simpleSchema simpleInst) = some simpleInst := by
  have hlaw : ∀ p ∈ simpleSchema.props, ∀ v a, p.2.decodeP v = some a →
      p.2.decodeP (p.2.encodeP a) = some a := by
    intro p hp v a hva
    simp only [simpleSchema, List.mem_cons, List.not_mem_nil, or_false]
      at hp
    rcases hp with hp | hp
    · subst hp
      cases v with
      | s w => simp [pcS] at hva; subst hva; simp [pcS]
      | n w => simp [pcS] at hva
      | b w => simp [pcS] at hva
    · subst hp
      cases v with
      | s w => simp [pcN] at hva
      | n w => simp [pcN] at hva; subst hva; simp [pcN]
      | b w => simp [pcN] at hva
  have h := C9_model_roundtrip "Simple" simpleSchema simpleRaw simpleInst
    (by decide) (by decide) hlaw (by rfl)
  exact ⟨h.1, h.2.2⟩

/-! ## C2/C3 — bulk engine: chunking, ordering, rollback -/

theorem chunkAt_zero {β : Type} (l : List β) : chunkAt l 0 = l.take 25 := by
  simp [chunkAt]

theorem chunkAt_drop25 {β : Type} (l : List β) (i : Nat) :
    chunkAt (l.drop 25) i = chunkAt l (i + 1) := by
  unfold chunkAt
  rw [List.drop_drop, show 25 + 25 * i = 25 * (i + 1) by ring]

/-- A nonempty chunk list's action items are nonempty (every operation
contributes its action or itself). -/
theorem actionItems_ne_nil {α : Type} (op : BulkOp α) (rest : List (BulkOp α)) :
    actionItems ((op :: rest).take 25) ≠ [] := by
  simp [actionItems]

/-- Writing phase: while the oracle accepts the first `k` action chunks,
the engine advances chunk by chunk, accumulating them (in caller order)
into `successful`. -/
theorem execWrite_progress {α : Type} (exec : List α → Option String) :
    ∀ (k : Nat) (l : List (BulkOp α)) (st : BulkWriteState α),
      (∀ i < k, exec (actionItems (chunkAt l i)) = none) →
      25 * k ≤ l.length →
      execWrite exec l st =
        execWrite exec (l.drop (25 * k))
          { st with successful := st.successful ++ l.take (25 * k) } := by
  intro k
  induction k with
  | zero =>
    intro l st _ _
    simp
  | succ k ih =>
    intro l st h hlen
    rcases l with _ | ⟨op, rest⟩
    · simp at hlen
    · have h0 : exec (actionItems ((op :: rest).take 25)) = none := by
        have := h 0 (by omega)
        rwa [chunkAt_zero] at this
      have hne : ¬(actionItems ((op :: rest).take 25)).isEmpty := by
        simp [List.isEmpty_iff, actionItems]
      rw [show execWrite exec (op :: rest) st =
            execWrite exec ((op :: rest).drop 25)
              { st with successful := st.successful ++ (op :: rest).take 25 }
          by
            simp only [execWrite]
            rw [if_neg hne]
            simp only [transactWriteResult, h0, Option.map_none']]
      rw [ih ((op :: rest).drop 25)
        { st with successful := st.successful ++ (op :: rest).take 25 }
        (fun i hi => by rw [chunkAt_drop25]; exact h (i + 1) (by omega))
        (by simp only [List.length_drop]; omega)]
      rw [List.drop_drop, show 25 + 25 * k = 25 * (k + 1) by ring]
      have htake : (op :: rest).take (25 * (k + 1)) =
          (op :: rest).take 25 ++ ((op :: rest).drop 25).take (25 * k) := by
        rw [show 25 * (k + 1) = 25 + 25 * k by ring, List.take_add]
      rw [htake]
      simp [List.append_assoc]

/-- Rollback phase, all compensations accepted: the engine walks exactly
the given operations chunk by chunk — issuing only the transaction-pairs'
rollbacks (`rollbackItems`), skipping chunks contributing none — and ends
with `rollbackSuccessful` set and every operation accounted for in
`rollbackSuccess`. -/
theorem execRollback_success {α : Type} (exec : List α → Option String) :
    ∀ (ops : List (BulkOp α)) (st : BulkWriteState α),
      (∀ j < ops.length, rollbackItems (chunkAt ops j) ≠ [] →
        exec (rollbackItems (chunkAt ops j)) = none) →
      execRollback exec ops st =
        { st with rollbackSuccessful := true
                  rollbackSuccess := st.rollbackSuccess ++ ops }
  | [], st, _ => by simp [execRollback]
  | op :: rest, st, h => by
    have hcall : (if (rollbackItems ((op :: rest).take 25)).isEmpty then
        (none : Option TWError)
        else transactWriteResult exec (rollbackItems ((op :: rest).take 25)))
        = none := by
      by_cases he : (rollbackItems ((op :: rest).take 25)).isEmpty
      · rw [if_pos he]
      · rw [if_neg he]
        have hne : rollbackItems ((op :: rest).take 25) ≠ [] := by
          simpa [List.isEmpty_iff] using he
        have h0 := h 0 (by simp)
        rw [chunkAt_zero] at h0
        simp only [transactWriteResult]
        rw [h0 hne]
        rfl
    rw [show execRollback exec (op :: rest) st =
          execRollback exec ((op :: rest).drop 25)
            { st with
              rollbackSuccess := st.rollbackSuccess ++ (op :: rest).take 25 }
        by
          simp only [execRollback]
          rw [hcall]]
    rw [execRollback_success exec ((op :: rest).drop 25) _ ?_]
    · simp [List.append_assoc]
    · intro j hj hne
      rw [chunkAt_drop25]
      refine h (j + 1) ?_ ?_
      · simp only [List.length_drop, List.length_cons] at hj ⊢
        omega
      · rwa [chunkAt_drop25] at hne
  termination_by ops _ _ => ops.length
  decreasing_by simp [List.length_drop]; omega

/-- Rollback phase, first failing compensation at chunk `j`: the engine
compensates the first `25 * j` operations, records the mapped error, and
leaves everything from chunk `j` on in `rollbackFailure`. -/
theorem execRollback_failure {α : Type} (exec : List α → Option String) :
    ∀ (j : Nat) (ops : List (BulkOp α)) (st : BulkWriteState α) (e : String),
      (∀ j' < j, rollbackItems (chunkAt ops j') ≠ [] →
        exec (rollbackItems (chunkAt ops j')) = none) →
      25 * j < ops.length →
      rollbackItems (chunkAt ops j) ≠ [] →
      exec (rollbackItems (chunkAt ops j)) = some e →
      execRollback exec ops st =
        { st with
          rollbackSuccess := st.rollbackSuccess ++ ops.take (25 * j)
          rollbackError := some (if e = "TransactionCanceledException"
            then TWError.bulkWriteTransaction e else TWError.raw e)
          rollbackFailure := ops.drop (25 * j) } := by
  intro j
  induction j with
  | zero =>
    intro ops st e _ hlen hne hfail
    rcases ops with _ | ⟨op, rest⟩
    · simp at hlen
    · rw [chunkAt_zero] at hne hfail
      have hcall : (if (rollbackItems ((op :: rest).take 25)).isEmpty then
          (none : Option TWError)
          else transactWriteResult exec
            (rollbackItems ((op :: rest).take 25))) =
          some (if e = "TransactionCanceledException"
            then TWError.bulkWriteTransaction e else TWError.raw e) := by
        rw [if_neg (by simpa [List.isEmpty_iff] using hne)]
        simp only [transactWriteResult]
        rw [hfail]
        rfl
      simp only [execRollback]
      rw [hcall]
      simp
  | succ j ih =>
    intro ops st e h hlen hne hfail
    rcases ops with _ | ⟨op, rest⟩
    · simp at hlen
    · have hcall : (if (rollbackItems ((op :: rest).take 25)).isEmpty then
          (none : Option TWError)
          else transactWriteResult exec
            (rollbackItems ((op :: rest).take 25))) = none := by
        by_cases he : (rollbackItems ((op :: rest).take 25)).isEmpty
        · rw [if_pos he]
        · rw [if_neg he]
          have hne0 : rollbackItems ((op :: rest).take 25) ≠ [] := by
            simpa [List.isEmpty_iff] using he
          have h0 := h 0 (by omega)
          rw [chunkAt_zero] at h0
          simp only [transactWriteResult]
          rw [h0 hne0]
          rfl
      rw [show execRollback exec (op :: rest) st =
            execRollback exec ((op :: rest).drop 25)
              { st with
                rollbackSuccess := st.rollbackSuccess ++ (op :: rest).take 25 }
          by
            simp only [execRollback]
            rw [hcall]]
      rw [ih ((op :: rest).drop 25) _ e ?_ ?_ ?_ ?_]
      · rw [List.drop_drop, show 25 + 25 * j = 25 * (j + 1) by ring]
        have htake : (op :: rest).take (25 * (j + 1)) =
            (op :: rest).take 25 ++ ((op :: rest).drop 25).take (25 * j) := by
          rw [show 25 * (j + 1) = 25 + 25 * j by ring, List.take_add]
        rw [htake]
        simp [List.append_assoc]
      · intro j' hj' hne'
        rw [chunkAt_drop25]
        rw [chunkAt_drop25] at hne'
        exact h (j' + 1) (by omega) hne'
      · simp only [List.length_drop, List.length_cons] at hlen ⊢
        omega
      · rwa [chunkAt_drop25]
      · rw [chunkAt_drop25]
        exact hfail

/-- Repeated `splitAt(25)` yields chunks of at most 25, none empty, whose
concatenation in order is the original list. -/
theorem chunksOf25_facts {β : Type} :
    ∀ (l : List β),
      (∀ c ∈ chunksOf25 l, c.length ≤ 25 ∧ c ≠ [])
      ∧ (chunksOf25 l).flatten = l
  | [] => by simp [chunksOf25]
  | x :: xs => by
    have ih := chunksOf25_facts ((x :: xs).drop 25)
    rw [show chunksOf25 (x :: xs) =
          (x :: xs).take 25 :: chunksOf25 ((x :: xs).drop 25) by
        simp only [chunksOf25]]
    refine ⟨?_, ?_⟩
    · intro c hc
      rcases List.mem_cons.mp hc with rfl | hc'
      · exact ⟨by rw [List.length_take]; exact min_le_left _ _, by simp⟩
      · exact ih.1 c hc'
    · rw [List.flatten_cons, ih.2, List.take_append_drop]
  termination_by l => l.length
  decreasing_by simp [List.length_drop]; omega

/-- The engine's chunk traversal refines the spec's shape: one
`transactWrite` per ≤25-chunk, chunks in caller order. -/
theorem execWrite_eq_specIssueChunks {α : Type} (exec : List α → Option String) :
    ∀ (l : List (BulkOp α)) (st : BulkWriteState α),
      execWrite exec l st = specIssueChunks exec (chunksOf25 l) st
  | [], st => by simp [execWrite, chunksOf25, specIssueChunks]
  | op :: rest, st => by
    rw [show chunksOf25 (op :: rest) =
          (op :: rest).take 25 :: chunksOf25 ((op :: rest).drop 25) by
        simp only [chunksOf25]]
    simp only [execWrite, specIssueChunks]
    rcases hc : (if (actionItems ((op :: rest).take 25)).isEmpty then
        (none : Option TWError)
        else transactWriteResult exec (actionItems ((op :: rest).take 25)))
      with _ | e
    · exact execWrite_eq_specIssueChunks exec ((op :: rest).drop 25)
        { st with successful := st.successful ++ (op :: rest).take 25 }
    · rfl
  termination_by l _ => l.length
  decreasing_by simp [List.length_drop]; omega

/-- C3: for every bulk call, the flattened operation sequence is split by
repeated `splitAt(25)` into chunks of at most 25 (all nonempty); the
engine issues exactly one `transactWrite` per chunk, in caller order (it
equals the spec-shaped fold over `chunksOf25`); and concatenating the
chunks in order gives back the flattened sequence, so every operation
appears in exactly one chunk. -/
theorem C3_bulk_chunking {α : Type} (exec : List α → Option String)
    (args : List (BulkArg α)) (st : BulkWriteState α) :
    execWrite exec (flattenBulkArgs args) st =
      specIssueChunks exec (chunksOf25 (flattenBulkArgs args)) st
    ∧ ((chunksOf25 (flattenBulkArgs args)).all fun c =>
        decide (c.length ≤ 25) && !c.isEmpty) = true
    ∧ (chunksOf25 (flattenBulkArgs args)).flatten = flattenBulkArgs args := by
  refine ⟨execWrite_eq_specIssueChunks exec _ st, ?_,
    (chunksOf25_facts _).2⟩
  rw [List.all_eq_true]
  intro c hc
  have hfacts := (chunksOf25_facts (flattenBulkArgs args)).1 c hc
  simp [hfacts.1, List.isEmpty_iff, hfacts.2]

/-- C2: for every bulk call whose flattened list fails (with a
cancellation) at chunk `k` after the first `k` chunks were accepted:
(a) when every compensation succeeds, the rollback walks exactly the
previously-successful prefix (`take (25*k)`), executing only the
transaction-pairs' rollbacks (`rollbackItems` skips plain operations),
accounts for all of it in `rollbackSuccess`, and `bulk` throws the
original `BulkWriteTransactionError`; (b) when compensation chunk `j`
fails, `bulk` throws `BulkWriteRollbackError` carrying exactly the
operations still needing rollback (`drop (25*j)` of the successful
prefix); (c) when the first chunk fails (`k = 0`), `bulk` throws the
original `BulkWriteTransactionError` — with no rollback hypotheses
needed, since no compensation is consulted. -/
theorem C2_bulk_rollback {α : Type} (exec : List α → Option String)
    (args : List (BulkArg α)) (k : Nat)
    (h1 : ∀ i < k, exec (actionItems (chunkAt (flattenBulkArgs args) i)) = none)
    (h2 : exec (actionItems (chunkAt (flattenBulkArgs args) k)) =
      some "TransactionCanceledException")
    (hk : 25 * k < (flattenBulkArgs args).length) :
    ((∀ j < ((flattenBulkArgs args).take (25 * k)).length,
        rollbackItems (chunkAt ((flattenBulkArgs args).take (25 * k)) j) ≠ [] →
        exec (rollbackItems
          (chunkAt ((flattenBulkArgs args).take (25 * k)) j)) = none) →
      bulk exec args = Except.error (.transaction
        (.bulkWriteTransaction "TransactionCanceledException"))
      ∧ ∀ st0 : BulkWriteState α,
          execRollback exec ((flattenBulkArgs args).take (25 * k)) st0 =
            { st0 with rollbackSuccessful := true
                       rollbackSuccess := st0.rollbackSuccess ++
                         (flattenBulkArgs args).take (25 * k) })
    ∧ (∀ j e2,
        (∀ j' < j,
          rollbackItems
            (chunkAt ((flattenBulkArgs args).take (25 * k)) j') ≠ [] →
          exec (rollbackItems
            (chunkAt ((flattenBulkArgs args).take (25 * k)) j')) = none) →
        25 * j < ((flattenBulkArgs args).take (25 * k)).length →
        rollbackItems (chunkAt ((flattenBulkArgs args).take (25 * k)) j) ≠ [] →
        exec (rollbackItems
          (chunkAt ((flattenBulkArgs args).take (25 * k)) j)) = some e2 →
        bulk exec args = Except.error
          (.rollback (((flattenBulkArgs args).take (25 * k)).drop (25 * j))))
    ∧ (k = 0 →
      bulk exec args = Except.error (.transaction
        (.bulkWriteTransaction "TransactionCanceledException"))) := by
  have hw := execWrite_progress exec k (flattenBulkArgs args) {} h1
    (le_of_lt hk)
  rcases hdrop : (flattenBulkArgs args).drop (25 * k) with _ | ⟨op, rest⟩
  · exfalso
    have hlen : ((flattenBulkArgs args).drop (25 * k)).length =
        (flattenBulkArgs args).length - 25 * k := List.length_drop _ _
    rw [hdrop] at hlen
    simp at hlen
    omega
  · have hchunk : (op :: rest).take 25 =
        chunkAt (flattenBulkArgs args) k := by
      unfold chunkAt
      rw [hdrop]
    have hne : ¬(actionItems ((op :: rest).take 25)).isEmpty := by
      simp [List.isEmpty_iff, actionItems]
    have hfail : execWrite exec (flattenBulkArgs args) {} =
        Except.error (execRollback exec
          ((flattenBulkArgs args).take (25 * k))
          { inRollback := true
            transactionError := some
              (.bulkWriteTransaction "TransactionCanceledException")
            successful := (flattenBulkArgs args).take (25 * k)
            rollbackSuccess := [], rollbackFailure := [] }) := by
      rw [hw, hdrop]
      simp only [execWrite]
      rw [if_neg hne]
      simp only [transactWriteResult, hchunk, h2]
      simp
    refine ⟨?_, ?_, ?_⟩
    · intro hrb
      constructor
      · unfold bulk
        rw [hfail,
          execRollback_success exec ((flattenBulkArgs args).take (25 * k))
            _ hrb]
        simp
      · intro st0
        exact execRollback_success exec _ st0 hrb
    · intro j e2 hj1 hj2 hj3 hj4
      unfold bulk
      rw [hfail,
        execRollback_failure exec j ((flattenBulkArgs args).take (25 * k))
          _ e2 hj1 hj2 hj3 hj4]
      simp
    · intro hk0
      subst hk0
      unfold bulk
      rw [hfail]
      simp [execRollback]

/-- C2, witness: 30 transaction pairs (two chunks); the oracle accepts
chunk 0, cancels chunk 1, and accepts the rollback of the 25 successful
pairs — `bulk` throws the original `BulkWriteTransactionError`. -/
theorem C2_bulk_rollback_witness :
    bulk wExec wArgs = Except.error (.transaction
      (.bulkWriteTransaction "TransactionCanceledException")) :=
  ((C2_bulk_rollback wExec wArgs 1 (by decide) (by decide) (by decide)).1
    (by decide)).1

end ModelTs
